import Mathlib

/-!
Verification of the UELogParser core (file indexer, chunked line reader,
search engine, line classifier) against its natural-language specification.

The Rust sources are shallowly embedded: files are lists of bytes
(`List Nat`, each expected < 256), strings are lists of bytes, regexes used
by the parser are translated into explicit byte-level parsers (the source
patterns are anchored and use character classes disjoint from the literals
that follow them, so deterministic maximal-munch parsing coincides with the
regex engine's leftmost-first semantics on these patterns; character classes
are modelled at ASCII level), and `HashMap<String, u64>` is modelled as an
association list updated in first-insertion order.
-/

namespace UELog

/-- ASCII bytes of a Lean string literal (only used on ASCII strings, where
the char code equals the UTF-8 byte). -/
def bytes (s : String) : List Nat := s.data.map Char.toNat

/-- Whitespace byte, ASCII fragment of the regex class \s. -/
def wsB (b : Nat) : Bool := b == 32 || b == 9 || b == 10 || b == 11 || b == 12 || b == 13

/-- Digit byte, ASCII fragment of the regex class \d. -/
def digitB (b : Nat) : Bool := 48 ≤ b && b ≤ 57

/-- Word byte, ASCII fragment of the regex class \w. -/
def wordB (b : Nat) : Bool :=
  (48 ≤ b && b ≤ 57) || (65 ≤ b && b ≤ 90) || (97 ≤ b && b ≤ 122) || b == 95

/-- ASCII lowercasing, modelling `str::to_lowercase` on ASCII input. -/
def lowerB (b : Nat) : Nat := if 65 ≤ b ∧ b ≤ 90 then b + 32 else b

/-- Log verbosity level, from `types.rs` `LogLevel`. -/
inductive LogLevel where
  | error | warning | display | verbose | veryVerbose | unknown
  deriving DecidableEq, Repr

/-- Case-insensitive textual mapping of `LogLevel::from_str` in `types.rs`. -/
def LogLevel.from_str (s : List Nat) : LogLevel :=
  let l := s.map lowerB
  if l = bytes "error" then .error
  else if l = bytes "warning" then .warning
  else if l = bytes "display" then .display
  else if l = bytes "verbose" then .verbose
  else if l = bytes "veryverbose" then .veryVerbose
  else .unknown

/-- Display name of a level, from `LogLevel::display_name` in `types.rs`. -/
def LogLevel.display_name : LogLevel → List Nat
  | .error => bytes "Error"
  | .warning => bytes "Warning"
  | .display => bytes "Display"
  | .verbose => bytes "Verbose"
  | .veryVerbose => bytes "VeryVerbose"
  | .unknown => bytes "Unknown"

/-- One parsed log line, from `types.rs` `LogEntry`. -/
structure LogEntry where
  line_number : Nat
  raw : List Nat
  timestamp : Option (List Nat)
  frame : Option Nat
  category : Option (List Nat)
  level : LogLevel
  message : Option (List Nat)
  is_continuation : Bool
  deriving DecidableEq, Repr

instance : Inhabited LogEntry :=
  ⟨⟨0, [], none, none, none, .unknown, none, false⟩⟩

/-- Unparsed raw line constructor, from `LogEntry::raw` in `types.rs`. -/
def LogEntry.rawEntry (line_number : Nat) (content : List Nat) : LogEntry :=
  ⟨line_number, content, none, none, none, .unknown, none, false⟩

/-- Checkpoint interval, `FileIndex::INDEX_INTERVAL` in `types.rs`. -/
def INDEX_INTERVAL : Nat := 1000

/-- Structural summary of one file, from `types.rs` `FileIndex`.
Count maps are association lists in first-insertion order. -/
structure FileIndex where
  file_path : List Nat
  total_lines : Nat
  file_size : Nat
  line_offsets : List Nat
  index_interval : Nat
  categories : List (List Nat × Nat)
  level_counts : List (List Nat × Nat)
  deriving DecidableEq, Repr

/-- A contiguous slice of parsed lines, from `types.rs` `LogChunk`. -/
structure LogChunk where
  start_line : Nat
  end_line : Nat
  entries : List LogEntry
  deriving DecidableEq, Repr

/-- One search match, from `types.rs` `SearchResult`. `start`/`end_` hold
whatever `regex::Match::start/end` return on the searched line. -/
structure SearchResult where
  line_number : Nat
  matched_text : List Nat
  start : Nat
  end_ : Nat
  deriving DecidableEq, Repr

instance : Inhabited SearchResult := ⟨⟨0, [], 0, 0⟩⟩

/-- Search request parameters, from `types.rs` `SearchOptions`. -/
structure SearchOptions where
  pattern : List Nat
  use_regex : Bool
  case_insensitive : Bool
  start_line : Option Nat
  end_line : Option Nat
  deriving DecidableEq, Repr

/-! ## Line classifier (`parser/log_parser.rs`, `parser/patterns.rs`) -/

/-- Rust `str::trim_end` (ASCII whitespace fragment). -/
def trimEnd (l : List Nat) : List Nat := (l.reverse.dropWhile wsB).reverse

/-- `LogParser::is_continuation`: starts with a space, with `>`, or empty. -/
def isContinuation (l : List Nat) : Bool :=
  match l with
  | [] => true
  | b :: _ => b == 32 || b == 62

/-- Consume one expected byte. -/
def expectB (b : Nat) : List Nat → Option (List Nat)
  | c :: t => if c = b then some t else none
  | [] => none

/-- Consume an expected byte sequence. -/
def expectSeq (s : List Nat) (l : List Nat) : Option (List Nat) :=
  if s.isPrefixOf l then some (l.drop s.length) else none

/-- Consume exactly `k` digit bytes, returning them and the rest. -/
def parseNDigits : Nat → List Nat → Option (List Nat × List Nat)
  | 0, l => some ([], l)
  | _ + 1, [] => none
  | k + 1, b :: t =>
    if digitB b then (parseNDigits k t).map (fun p => (b :: p.1, p.2)) else none

/-- Numeric value of a digit-byte list (most significant first). -/
def digitsVal (ds : List Nat) : Nat := ds.foldl (fun acc d => acc * 10 + (d - 48)) 0

/-- Rust `str::parse::<u64>().ok()` on a nonempty digit string: the value,
unless it overflows `u64`. -/
def parseU64 (ds : List Nat) : Option Nat :=
  if ds = [] then none
  else if digitsVal ds < 2 ^ 64 then some (digitsVal ds) else none

/-- Consume `k` digits then one expected separator byte, returning both as
captured bytes. -/
def parseDigitsSep (k sep : Nat) (l : List Nat) : Option (List Nat × List Nat) :=
  match parseNDigits k l with
  | none => none
  | some (d, r) =>
    match expectB sep r with
    | none => none
    | some r2 => some (d ++ [sep], r2)

/-- The fixed-width date-time token of `PATTERN_STANDARD`
(`\d{4}\.\d{2}\.\d{2}-\d{2}\.\d{2}\.\d{2}:\d{3}`), returning the exact
captured bytes and the rest of the input. -/
def parseTimestamp (l : List Nat) : Option (List Nat × List Nat) :=
  match parseDigitsSep 4 46 l with
  | none => none
  | some (p1, r1) =>
  match parseDigitsSep 2 46 r1 with
  | none => none
  | some (p2, r2) =>
  match parseDigitsSep 2 45 r2 with
  | none => none
  | some (p3, r3) =>
  match parseDigitsSep 2 46 r3 with
  | none => none
  | some (p4, r4) =>
  match parseDigitsSep 2 46 r4 with
  | none => none
  | some (p5, r5) =>
  match parseDigitsSep 2 58 r5 with
  | none => none
  | some (p6, r6) =>
  match parseNDigits 3 r6 with
  | none => none
  | some (d7, r7) => some (p1 ++ p2 ++ p3 ++ p4 ++ p5 ++ p6 ++ d7, r7)

/-- `PATTERN_STANDARD` from `patterns.rs`:
`^\[(<timestamp>)\]\[\s*(\d+)\](\w+):\s*(\w+):\s*(.*)$`.
The classes \s, \d, \w are disjoint from the literal that follows each
quantified group, so the regex's leftmost-first/greedy semantics coincide
with maximal munch; `(.*)$` requires the remaining capture to contain no
newline (`.` never matches \n and `$` anchors at the end of the haystack). -/
def matchStandard (l : List Nat) :
    Option (List Nat × List Nat × List Nat × List Nat × List Nat) :=
  match expectB 91 l with
  | none => none
  | some r0 =>
  match parseTimestamp r0 with
  | none => none
  | some (ts, r1) =>
  match expectB 93 r1 with
  | none => none
  | some r2 =>
  match expectB 91 r2 with
  | none => none
  | some r3 =>
  let r4 := r3.dropWhile wsB
  let frameDigits := r4.takeWhile digitB
  if frameDigits = [] then none else
  match expectB 93 (r4.dropWhile digitB) with
  | none => none
  | some r5 =>
  let cat := r5.takeWhile wordB
  if cat = [] then none else
  match expectB 58 (r5.dropWhile wordB) with
  | none => none
  | some r6 =>
  let r7 := r6.dropWhile wsB
  let lvl := r7.takeWhile wordB
  if lvl = [] then none else
  match expectB 58 (r7.dropWhile wordB) with
  | none => none
  | some r8 =>
  let msg := r8.dropWhile wsB
  if msg.contains 10 then none else
  some (ts, frameDigits, cat, lvl, msg)

/-- `PATTERN_SIMPLE` from `patterns.rs`: `^(\w+):\s*(\w+):\s*(.*)$`. -/
def matchSimple (l : List Nat) : Option (List Nat × List Nat × List Nat) :=
  let cat := l.takeWhile wordB
  if cat = [] then none else
  match expectB 58 (l.dropWhile wordB) with
  | none => none
  | some r1 =>
  let r2 := r1.dropWhile wsB
  let lvl := r2.takeWhile wordB
  if lvl = [] then none else
  match expectB 58 (r2.dropWhile wordB) with
  | none => none
  | some r3 =>
  let msg := r3.dropWhile wsB
  if msg.contains 10 then none else
  some (cat, lvl, msg)

/-- `PATTERN_HEADER` from `patterns.rs`:
`^Log file open,\s*(\d{2}/\d{2}/\d{2}\s+\d{2}:\d{2}:\d{2})`, used with
`is_match` only (no end anchor). -/
def matchHeader (l : List Nat) : Bool :=
  match expectSeq (bytes "Log file open,") l with
  | none => false
  | some r0 =>
  match parseDigitsSep 2 47 (r0.dropWhile wsB) with
  | none => false
  | some (_, r2) =>
  match parseDigitsSep 2 47 r2 with
  | none => false
  | some (_, r4) =>
  match parseNDigits 2 r4 with
  | none => false
  | some (_, r6) =>
  let r7 := r6.dropWhile wsB
  if r6.length = r7.length then false else
  match parseDigitsSep 2 58 r7 with
  | none => false
  | some (_, r8) =>
  match parseDigitsSep 2 58 r8 with
  | none => false
  | some (_, r10) =>
  (parseNDigits 2 r10).isSome

/-- Rust `str::replace(pat, "")`: remove all non-overlapping occurrences of
`pat`, scanning left to right (fuel-driven; `fuel ≥ l.length` suffices). -/
def removeAllGo (pat : List Nat) : Nat → List Nat → List Nat
  | 0, l => l
  | _ + 1, [] => []
  | fuel + 1, l@(b :: t) =>
    if pat ≠ [] ∧ pat.isPrefixOf l then removeAllGo pat fuel (l.drop pat.length)
    else b :: removeAllGo pat fuel t

/-- `trimmed.replace("Log file open, ", "")` from `log_parser.rs` line 63. -/
def removeAll (pat l : List Nat) : List Nat := removeAllGo pat l.length l

/-- `LogParser::parse_line` from `log_parser.rs`: continuation test, then
standard format, simple format, file-open header, then raw fallback —
first match wins. -/
def parse_line (line_number : Nat) (content : List Nat) : LogEntry :=
  let trimmed := trimEnd content
  if isContinuation trimmed then
    ⟨line_number, trimmed, none, none, none, .unknown, some trimmed, true⟩
  else match matchStandard trimmed with
  | some (ts, fr, cat, lvl, msg) =>
    ⟨line_number, trimmed, some ts, parseU64 fr, some cat, LogLevel.from_str lvl,
      some msg, false⟩
  | none => match matchSimple trimmed with
    | some (cat, lvl, msg) =>
      ⟨line_number, trimmed, none, none, some cat, LogLevel.from_str lvl, some msg, false⟩
    | none =>
      if matchHeader trimmed then
        ⟨line_number, trimmed, some (removeAll (bytes "Log file open, ") trimmed),
          none, some (bytes "LogFile"), .display, some (bytes "Log file opened"), false⟩
      else LogEntry.rawEntry line_number trimmed

/-- One alternative of `EXTRACT_LEVEL`: a level name followed by `:`,
tried in the regex's alternation order (the five names are pairwise
non-prefix of each other, so at most one alternative can succeed). -/
def levelNameAt (l : List Nat) : Option LogLevel :=
  if (bytes "Error:").isPrefixOf l then some (LogLevel.from_str (bytes "Error"))
  else if (bytes "Warning:").isPrefixOf l then some (LogLevel.from_str (bytes "Warning"))
  else if (bytes "Display:").isPrefixOf l then some (LogLevel.from_str (bytes "Display"))
  else if (bytes "Verbose:").isPrefixOf l then some (LogLevel.from_str (bytes "Verbose"))
  else if (bytes "VeryVerbose:").isPrefixOf l then some (LogLevel.from_str (bytes "VeryVerbose"))
  else none

/-- `LogParser::extract_level`: leftmost match of the unanchored regex
`:(Error|Warning|Display|Verbose|VeryVerbose):`, mapped through
`LogLevel::from_str`. -/
def extract_level : List Nat → Option LogLevel
  | [] => none
  | b :: t => if b = 58 then (levelNameAt t).orElse (fun _ => extract_level t)
              else extract_level t

/-- Tail of branch 1 of `EXTRACT_CATEGORY` after the lazy gap:
`\]\[\s*\d+\](\w+):`. -/
def catBranch1At (l : List Nat) : Option (List Nat) :=
  match expectB 93 l with
  | none => none
  | some r0 =>
  match expectB 91 r0 with
  | none => none
  | some r1 =>
  let r2 := r1.dropWhile wsB
  if r2.takeWhile digitB = [] then none else
  match expectB 93 (r2.dropWhile digitB) with
  | none => none
  | some r3 =>
  let w := r3.takeWhile wordB
  if w = [] then none else
  match expectB 58 (r3.dropWhile wordB) with
  | none => none
  | some _ => some w

/-- Lazy scan for branch 1 of `EXTRACT_CATEGORY` (`\[.*?\]\[\s*\d+\](\w+):`):
`.*?` tries the shortest gap first and cannot cross a newline. -/
def catScan : List Nat → Option (List Nat)
  | [] => none
  | l@(b :: t) =>
    (catBranch1At l).orElse (fun _ => if b = 10 then none else catScan t)

/-- `LogParser::extract_category`: the anchored alternation
`^\[.*?\]\[\s*\d+\](\w+):|^(\w+):` with `caps.get(1).or(caps.get(2))` —
branch 1 is preferred (leftmost-first), branch 2 is the bare category. -/
def extract_category (l : List Nat) : Option (List Nat) :=
  (match l with
   | 91 :: t => catScan t
   | _ => none).orElse
    (fun _ =>
      let w := l.takeWhile wordB
      if w ≠ [] ∧ expectB 58 (l.dropWhile wordB) ≠ none then some w else none)

/-- Continuation byte of a UTF-8 sequence (0x80–0xBF). -/
def contB (b : Nat) : Bool := 128 ≤ b && b ≤ 191

/-- UTF-8 validity of a byte list, as checked by `std::str::from_utf8`. -/
def validUtf8 : List Nat → Bool
  | [] => true
  | b :: t =>
    if b ≤ 127 then validUtf8 t
    else if 194 ≤ b ∧ b ≤ 223 then
      match t with
      | c :: t2 => contB c && validUtf8 t2
      | [] => false
    else if 224 ≤ b ∧ b ≤ 239 then
      match t with
      | c1 :: c2 :: t2 =>
        (if b = 224 then 160 ≤ c1 && c1 ≤ 191
         else if b = 237 then 128 ≤ c1 && c1 ≤ 159
         else contB c1) && contB c2 && validUtf8 t2
      | _ => false
    else if 240 ≤ b ∧ b ≤ 244 then
      match t with
      | c1 :: c2 :: c3 :: t2 =>
        (if b = 240 then 144 ≤ c1 && c1 ≤ 191
         else if b = 244 then 128 ≤ c1 && c1 ≤ 143
         else contB c1) && contB c2 && contB c3 && validUtf8 t2
      | _ => false
    else false

/-! ## File indexer (`streaming/file_indexer.rs`) -/

/-- Bump a count map (Rust `*map.entry(key).or_insert(0) += 1`), modelled on
an association list in first-insertion order. -/
def bumpCount (m : List (List Nat × Nat)) (key : List Nat) : List (List Nat × Nat) :=
  if m.any (fun p => p.1 = key) then
    m.map (fun p => if p.1 = key then (p.1, p.2 + 1) else p)
  else m ++ [(key, 1)]

/-- Mutable scan state of `FileIndexer::build_index`. -/
structure ScanSt where
  line_offsets : List Nat
  current_offset : Nat
  line_count : Nat
  categories : List (List Nat × Nat)
  level_counts : List (List Nat × Nat)
  deriving Repr

/-- The body of `build_index`'s `for (i, &byte)` loop for one byte. -/
def scanStep (data : List Nat) (b i : Nat) (st : ScanSt) : ScanSt :=
  if b = 10 then
    let lc := st.line_count + 1
    let slice := (data.drop st.current_offset).take (i - st.current_offset)
    let doMaps := st.current_offset < i ∧ validUtf8 slice
    let cats := if doMaps then
        match extract_category slice with
        | some c => bumpCount st.categories c
        | none => st.categories
      else st.categories
    let lvls := if doMaps then
        match extract_level slice with
        | some lv => bumpCount st.level_counts lv.display_name
        | none => st.level_counts
      else st.level_counts
    let offs := if lc % INDEX_INTERVAL = 0 then st.line_offsets ++ [i + 1]
      else st.line_offsets
    ⟨offs, i + 1, lc, cats, lvls⟩
  else st

/-- The byte loop of `build_index`: `rest` is the suffix of `data` starting
at index `i`. -/
def scanGo (data : List Nat) : List Nat → Nat → ScanSt → ScanSt
  | [], _, st => st
  | b :: rest, i, st => scanGo data rest (i + 1) (scanStep data b i st)

/-- `FileIndexer::build_index` (with `open` supplying the mmap'd bytes):
scan every byte, then count a final line without trailing newline. -/
def build_index (path : List Nat) (data : List Nat) : FileIndex :=
  let st := scanGo data data 0 ⟨[0], 0, 0, [], []⟩
  let line_count := if st.current_offset < data.length then st.line_count + 1
    else st.line_count
  ⟨path, line_count, data.length, st.line_offsets, INDEX_INTERVAL,
    st.categories, st.level_counts⟩

/-- Index of a file from its raw bytes (the `index_file` convenience
entry point; the path plays no role in any claim). -/
def buildIndex (data : List Nat) : FileIndex := build_index [] data

/-! ## Chunked line reader (`streaming/line_reader.rs`) -/

/-- Strip one trailing `\r` (what `BufRead::lines` does after removing the
`\n`). -/
def stripCR (l : List Nat) : List Nat :=
  match l.getLast? with
  | some 13 => l.dropLast
  | _ => l

/-- Loop of `BufRead::lines`: `acc` holds the bytes of the current line in
reverse. A line terminated by `\n` loses the `\n` and one trailing `\r`;
a final unterminated line is yielded as is. -/
def linesGo : List Nat → List Nat → List (List Nat)
  | [], acc => if acc = [] then [] else [acc.reverse]
  | 10 :: t, acc => stripCR acc.reverse :: linesGo t []
  | b :: t, acc => linesGo t (b :: acc)

/-- The sequence of lines `BufRead::lines` yields on a byte stream. -/
def rustLines (data : List Nat) : List (List Nat) := linesGo data []

/-- A cached chunk: parsed entries plus the insertion-time stamp
(`Instant` modelled as a strictly increasing logical clock). -/
structure CacheItem where
  entries : List LogEntry
  access_time : Nat
  deriving DecidableEq, Repr

/-- Reader-owned mutable state: the chunk cache and the logical clock. -/
structure ReaderSt where
  cache : List (Nat × CacheItem)
  clock : Nat
  deriving DecidableEq, Repr

/-- A fresh reader state (`LineReader::from_index`). -/
def emptyReader : ReaderSt := ⟨[], 0⟩

/-- `CACHE_SIZE` from `line_reader.rs`. -/
def CACHE_SIZE : Nat := 100

/-- Key of the cache item with the minimum access time
(`min_by_key(|(_, v)| v.access_time)`; stamps are distinct, so the minimum
is unique). -/
def oldestKey (c : List (Nat × CacheItem)) : Option Nat :=
  match c with
  | [] => none
  | p :: t =>
    some ((t.foldl (fun best q => if q.2.access_time < best.2.access_time then q else best) p).1)

/-- `LineReader::cache_chunk`: evict the oldest item when full, then insert
(replacing any item under the same key). -/
def cache_chunk (st : ReaderSt) (chunk_index : Nat) (entries : List LogEntry) : ReaderSt :=
  let c := if CACHE_SIZE ≤ st.cache.length then
      match oldestKey st.cache with
      | some k => st.cache.filter (fun p => p.1 ≠ k)
      | none => st.cache
    else st.cache
  ⟨c.filter (fun p => p.1 ≠ chunk_index) ++ [(chunk_index, ⟨entries, st.clock⟩)],
    st.clock + 1⟩

/-- The reader's checkpoint-index computation (`start_line / INDEX_INTERVAL`,
lines 57 and 82 of `line_reader.rs`). -/
def readerOffsetIndex (start_line : Nat) : Nat := start_line / INDEX_INTERVAL

/-- The `for line_result in reader.lines()` loop of `read_range`. Returns
the collected in-range entries, the pending chunk buffer, the final
`current_line`, and the reader state (the loop commits a full chunk buffer
to the cache under the requested `chunk_index`). -/
def rrLoop (chunk_index : Nat) (start_line end_line : Nat) :
    List (List Nat) → Nat → List LogEntry → List LogEntry → ReaderSt →
    List LogEntry × List LogEntry × Nat × ReaderSt
  | [], current, entries, chunkE, st => (entries, chunkE, current, st)
  | l :: rest, current, entries, chunkE, st =>
    let current' := current + 1
    let entry := parse_line current' l
    let chunkE' := chunkE ++ [entry]
    let entries' := if start_line ≤ current' ∧ current' ≤ end_line
      then entries ++ [entry] else entries
    if end_line ≤ current' then (entries', chunkE', current', st)
    else if INDEX_INTERVAL ≤ chunkE'.length then
      rrLoop chunk_index start_line end_line rest current' entries' []
        (cache_chunk st chunk_index chunkE')
    else rrLoop chunk_index start_line end_line rest current' entries' chunkE' st

/-- The cache-miss path of `read_range` (seek to the checkpoint, parse
forward, commit the leftover buffer). -/
def readRangeMiss (data : List Nat) (index : FileIndex) (st : ReaderSt)
    (start_line end_line chunk_index : Nat) : LogChunk × ReaderSt :=
  let offset_index := readerOffsetIndex start_line
  let file_offset := if offset_index < index.line_offsets.length then
      index.line_offsets.getD offset_index 0
    else 0
  let ls := rustLines (data.drop file_offset)
  let r := rrLoop chunk_index start_line end_line ls (offset_index * INDEX_INTERVAL) [] [] st
  let st' := if r.2.1 ≠ [] then cache_chunk r.2.2.2 chunk_index r.2.1 else r.2.2.2
  (⟨start_line, min r.2.2.1 end_line, r.1⟩, st')

/-- `LineReader::read_range`: clamp the bounds, probe the cache, otherwise
seek near the checkpoint and parse forward. -/
def read_range (data : List Nat) (index : FileIndex) (st : ReaderSt)
    (start_line end_line : Nat) : LogChunk × ReaderSt :=
  let start_line := max start_line 1
  let end_line := min end_line index.total_lines
  if end_line < start_line then (⟨start_line, start_line, []⟩, st)
  else
    let chunk_index := readerOffsetIndex start_line
    match st.cache.lookup chunk_index with
    | some item =>
      let entries := item.entries.filter
        (fun e => start_line ≤ e.line_number ∧ e.line_number ≤ end_line)
      if entries ≠ [] then (⟨start_line, end_line, entries⟩, st)
      else readRangeMiss data index st start_line end_line chunk_index
    | none => readRangeMiss data index st start_line end_line chunk_index

/-! ## Search engine (`search/regex_engine.rs`) -/

/-- Scan for the leftmost non-overlapping occurrences of a nonempty literal
pattern, as span pairs; `pos` is the absolute position of `rest` in the
haystack, `fuel ≥ rest.length` suffices. -/
def litGo (pat : List Nat) : Nat → List Nat → Nat → List (Nat × Nat)
  | 0, _, _ => []
  | _ + 1, [], _ => []
  | fuel + 1, rest@(_ :: t), pos =>
    if pat.isPrefixOf rest then
      (pos, pos + pat.length) :: litGo pat fuel (rest.drop pat.length) (pos + pat.length)
    else litGo pat fuel t (pos + 1)

/-- All non-overlapping matches of a literal pattern (what `find_iter` yields
for a fully escaped pattern): an empty pattern matches the empty string at
every position, advancing one unit at a time. -/
def literalMatches (pat text : List Nat) : List (Nat × Nat) :=
  if pat = [] then (List.range (text.length + 1)).map (fun i => (i, i))
  else litGo pat (text.length + 1) text 0

/-- Regex metacharacter, the set escaped by `regex::escape`
(`regex_syntax::is_meta_character`): `\ . + * ? ( ) | [ ] { } ^ $ # & - ~`. -/
def metaB (b : Nat) : Bool :=
  b == 92 || b == 46 || b == 43 || b == 42 || b == 63 || b == 40 || b == 41 ||
  b == 124 || b == 91 || b == 93 || b == 123 || b == 125 || b == 94 ||
  b == 36 || b == 35 || b == 38 || b == 45 || b == 126

/-- `regex::escape`: prepend a backslash to every metacharacter, leave every
other character unchanged. -/
def escape : List Nat → List Nat
  | [] => []
  | b :: t => (if metaB b then [92, b] else [b]) ++ escape t

/-- Modelled from the spec: the regex crate's compilation of a pattern that
stays in the *literal fragment* of regex syntax — "literal mode escapes all
metacharacters before compiling, so only regex mode can fail on malformed
syntax". A pattern every one of whose metacharacters is backslash-escaped
compiles successfully and denotes the literal string of its units (`some`
returns that string); a bare metacharacter, or a dangling backslash, is
regex syntax that the literal fragment cannot express (`none`, the
`PatternError` outcome). -/
def literalOf : List Nat → Option (List Nat)
  | [] => some []
  | b :: t =>
    if b = 92 then
      match t with
      | [] => none
      | c :: t2 => if metaB c then (literalOf t2).map (c :: ·) else none
    else if metaB b then none
    else (literalOf t).map (b :: ·)

/-- The search engine holds the compiled regex, represented by its matching
semantics: the spans `find_iter` yields on a haystack. -/
structure SearchEngine where
  matchSpans : List Nat → List (Nat × Nat)

/-- `SearchEngine::new` with `use_regex = false`: `regex::escape` the pattern
and compile (per the regex crate's contract the escaped pattern always
compiles and the compiled regex matches exactly the literal occurrences of
the pattern, case-folded when `case_insensitive` is set). -/
def SearchEngine.newLiteral (pattern : List Nat) (case_insensitive : Bool) : SearchEngine :=
  ⟨fun text =>
    if case_insensitive then literalMatches (pattern.map lowerB) (text.map lowerB)
    else literalMatches pattern text⟩

/-- The fallible form of `SearchEngine::new`'s literal branch
(`RegexBuilder::new(&regex::escape(&options.pattern)).build()?`): escape the
pattern, compile it in the literal fragment (`literalOf`; `none` is the
`PatternError` outcome), and build the matcher of the denoted literal. -/
def SearchEngine.newLiteralChecked (pattern : List Nat) (case_insensitive : Bool) :
    Option SearchEngine :=
  (literalOf (escape pattern)).map
    (fun lit =>
      ⟨fun text =>
        if case_insensitive then literalMatches (lit.map lowerB) (text.map lowerB)
        else literalMatches lit text⟩)

/-- Byte slice `text[s..e]`. -/
def slice (text : List Nat) (s e : Nat) : List Nat := (text.drop s).take (e - s)

/-- `SearchEngine::search_in_string`: every match becomes a `SearchResult`
whose `matched_text` is `m.as_str()` and whose `start`/`end` are
`m.start()`/`m.end()`. -/
def search_in_string (eng : SearchEngine) (text : List Nat) (line_number : Nat) :
    List SearchResult :=
  (eng.matchSpans text).map (fun p => ⟨line_number, slice text p.1 p.2, p.1, p.2⟩)

/-- The search-side checkpoint-index computation
(`(start_line - 1) / INDEX_INTERVAL`, `regex_engine.rs` lines 62 and 103);
the `u64` subtraction `start_line - 1` underflows when `start_line = 0`. -/
def searchOffsetIndex (start_line : Nat) : Nat := (start_line - 1) / INDEX_INTERVAL

/-- Loop of `search_next_page`: collects results and, as ghost
instrumentation for stating what the code inspects, the list of
`(line_number, match count)` pairs for every line the pattern was applied
to. `current` is the line number of the previously read line. -/
def snpLoop (eng : SearchEngine) (from_line end_line max_results : Nat) :
    List (List Nat) → Nat → List SearchResult → List (Nat × Nat) →
    List SearchResult × List (Nat × Nat)
  | [], _, results, inspected => (results, inspected)
  | l :: rest, current, results, inspected =>
    let n := current + 1
    if end_line < n ∨ max_results ≤ results.length then (results, inspected)
    else if n < from_line then snpLoop eng from_line end_line max_results rest n results inspected
    else
      let ms := search_in_string eng l n
      snpLoop eng from_line end_line max_results rest n (results ++ ms)
        (inspected ++ [(n, ms.length)])

/-- `SearchEngine::search_next_page` with its ghost trace: scan a
10,000-line window starting at the checkpoint nearest `from_line`. `none`
models the `u64` underflow panic of `from_line - 1` when `from_line = 0`
(checked builds). -/
def search_next_page_traced (eng : SearchEngine) (data : List Nat) (index : FileIndex)
    (from_line : Nat) (max_results : Nat) :
    Option (List SearchResult × List (Nat × Nat)) :=
  if from_line = 0 then none
  else
    let end_line := min (from_line + 10000) index.total_lines
    let offset_index := searchOffsetIndex from_line
    let file_offset := if offset_index < index.line_offsets.length then
        index.line_offsets.getD offset_index 0
      else 0
    let ls := rustLines (data.drop file_offset)
    some (snpLoop eng from_line end_line max_results ls (offset_index * INDEX_INTERVAL) [] [])

/-- `SearchEngine::search_next_page`: the results the function returns (the
ghost inspection trace projected away). -/
def search_next_page (eng : SearchEngine) (data : List Nat) (index : FileIndex)
    (from_line : Nat) (max_results : Nat) : Option (List SearchResult) :=
  (search_next_page_traced eng data index from_line max_results).map Prod.fst

/-- Loop of `search_in_file` (no result bound, no ghost output). -/
def sifLoop (eng : SearchEngine) (start_line end_line : Nat) :
    List (List Nat) → Nat → List SearchResult → List SearchResult
  | [], _, results => results
  | l :: rest, current, results =>
    let n := current + 1
    if end_line < n then results
    else if n < start_line then sifLoop eng start_line end_line rest n results
    else sifLoop eng start_line end_line rest n (results ++ search_in_string eng l n)

/-- `SearchEngine::search_in_file`: resolve the option bounds, seek to the
checkpoint nearest `start_line`, stream forward. `none` models the `u64`
underflow of `start_line - 1` when the resolved start line is 0. -/
def search_in_file (eng : SearchEngine) (data : List Nat) (index : FileIndex)
    (options : SearchOptions) : Option (List SearchResult) :=
  let start_line := options.start_line.getD 1
  let end_line := options.end_line.getD index.total_lines
  if start_line = 0 then none
  else
    let offset_index := searchOffsetIndex start_line
    let file_offset := if offset_index < index.line_offsets.length then
        index.line_offsets.getD offset_index 0
      else 0
    let ls := rustLines (data.drop file_offset)
    some (sifLoop eng start_line end_line ls (offset_index * INDEX_INTERVAL) [])

/-! ## Specification-side views of a file's line structure -/

/-- Positions (byte indexes) of the newline bytes of a file, in order. -/
def nlPos : List Nat → List Nat
  | [] => []
  | b :: t =>
    if b = 10 then 0 :: (nlPos t).map (· + 1) else (nlPos t).map (· + 1)

/-- Suffix of a file after its `m`-th newline (`afterNL data 0 = data`). -/
def afterNL : List Nat → Nat → List Nat
  | l, 0 => l
  | [], _ + 1 => []
  | b :: t, m + 1 => if b = 10 then afterNL t m else afterNL t (m + 1)

/-- Byte offset of the first byte of line `m` (1-based): 0 for line 1,
otherwise one past the `(m-1)`-th newline. -/
def lineStart (data : List Nat) (m : Nat) : Nat :=
  if m ≤ 1 then 0 else (nlPos data).getD (m - 2) 0 + 1

/-- Whether the file has trailing bytes after its last newline (a final
line not terminated by `\n`). -/
def keepsTail : List Nat → Bool
  | [] => false
  | [b] => b ≠ 10
  | _ :: b :: t => keepsTail (b :: t)

/-- The checkpoint offsets `build_index` appends while scanning a list of
newline positions: position `p` (0-based index `j` in the list) contributes
`p + 1` when the running line count `lc + j + 1` is a multiple of 1000. -/
def pushes : List Nat → Nat → List Nat
  | [], _ => []
  | p :: t, lc =>
    if (lc + 1) % INDEX_INTERVAL = 0 then (p + 1) :: pushes t (lc + 1)
    else pushes t (lc + 1)

/-- The newline-terminated segments of a file (content between consecutive
newlines; a final unterminated segment is not included), starting from a
partial current segment `acc`. -/
def termSegs : List Nat → List Nat → List (List Nat)
  | _, [] => []
  | acc, b :: t => if b = 10 then acc :: termSegs [] t else termSegs (acc ++ [b]) t

/-- One line's contribution to the category/level count maps in
`build_index`: nothing unless the segment is nonempty and valid UTF-8. -/
def mapsStep (m : List (List Nat × Nat) × List (List Nat × Nat)) (seg : List Nat) :
    List (List Nat × Nat) × List (List Nat × Nat) :=
  if seg ≠ [] ∧ validUtf8 seg then
    (match extract_category seg with
     | some c => bumpCount m.1 c
     | none => m.1,
     match extract_level seg with
     | some lv => bumpCount m.2 lv.display_name
     | none => m.2)
  else m

/-- Number of UTF-8 characters encoded by the first `k` bytes of a line
(each non-continuation byte starts a character), i.e. the character
position of byte offset `k`. -/
def charPos (text : List Nat) (k : Nat) : Nat :=
  ((text.take k).filter (fun b => !contB b)).length

/-! ## Concrete test files -/

/-- A 9-line test file. -/
def c1File9 : List Nat := bytes "a1\na2\na3\na4\na5\na6\na7\na8\na9\n"

/-- A 1000-line test file (1000 empty lines). -/
def c1File1000 : List Nat := List.replicate 1000 10

/-- A 1001-line test file (1000 empty lines and an unterminated final
line). -/
def c1File1001 : List Nat := List.replicate 1000 10 ++ [97]

/-- The overflow invariant of `search_next_page`'s loop: either at most
`max_results` results are collected, or the overflow is entirely due to the
matches of the last inspected line. -/
def snpGood (mx : Nat) (res : List SearchResult) (insp : List (Nat × Nat)) : Prop :=
  res.length ≤ mx ∨ ∃ pr, insp.getLast? = some pr ∧ res.length < mx + pr.2

/-- The standard-format example line of the specification. -/
def c5Line : List Nat :=
  bytes "[2026.02.14-03.33.56:070][  0]LogWindows: Error: Test error message"

/-! ## Lemmas: the indexer's scan -/

lemma scanStep_of_ne (data : List Nat) {b : Nat} (i : Nat) (st : ScanSt)
    (h : b ≠ 10) : scanStep data b i st = st := by
  simp [scanStep, h]

lemma scanStep_nl_line_count (data : List Nat) (i : Nat) (st : ScanSt) :
    (scanStep data 10 i st).line_count = st.line_count + 1 := by
  simp [scanStep]

lemma scanStep_nl_current_offset (data : List Nat) (i : Nat) (st : ScanSt) :
    (scanStep data 10 i st).current_offset = i + 1 := by
  simp [scanStep]

lemma scanStep_nl_offsets (data : List Nat) (i : Nat) (st : ScanSt) :
    (scanStep data 10 i st).line_offsets =
      st.line_offsets ++
        (if (st.line_count + 1) % INDEX_INTERVAL = 0 then [i + 1] else []) := by
  by_cases h : (st.line_count + 1) % INDEX_INTERVAL = 0 <;> simp [scanStep, h]

lemma map_add_shift (ps : List Nat) (i : Nat) :
    (ps.map (· + 1)).map (· + i) = ps.map (· + (i + 1)) := by
  rw [List.map_map]
  apply List.map_congr_left
  intro a _
  simp only [Function.comp_apply]
  omega

lemma nlPos_map_shift_nl (t : List Nat) (i : Nat) :
    (nlPos (10 :: t)).map (· + i) = i :: (nlPos t).map (· + (i + 1)) := by
  rw [show nlPos (10 :: t) = 0 :: (nlPos t).map (· + 1) by simp [nlPos]]
  rw [List.map_cons, map_add_shift]
  simp

lemma nlPos_map_shift_ne {b : Nat} (t : List Nat) (i : Nat) (hb : b ≠ 10) :
    (nlPos (b :: t)).map (· + i) = (nlPos t).map (· + (i + 1)) := by
  rw [show nlPos (b :: t) = (nlPos t).map (· + 1) by simp [nlPos, hb]]
  rw [map_add_shift]

lemma scanGo_line_count (data : List Nat) :
    ∀ (rest : List Nat) (i : Nat) (st : ScanSt),
      (scanGo data rest i st).line_count = st.line_count + rest.count 10
  | [], i, st => by simp [scanGo]
  | b :: t, i, st => by
    rw [scanGo, scanGo_line_count data t]
    by_cases hb : b = 10
    · subst hb
      rw [scanStep_nl_line_count, List.count_cons_self]
      omega
    · rw [scanStep_of_ne data i st hb,
        List.count_cons_of_ne (fun h => hb h.symm)]

lemma scanGo_offsets (data : List Nat) :
    ∀ (rest : List Nat) (i : Nat) (st : ScanSt),
      (scanGo data rest i st).line_offsets =
        st.line_offsets ++ pushes ((nlPos rest).map (· + i)) st.line_count
  | [], i, st => by simp [scanGo, nlPos, pushes]
  | b :: t, i, st => by
    rw [scanGo, scanGo_offsets data t]
    by_cases hb : b = 10
    · subst hb
      rw [nlPos_map_shift_nl, pushes, scanStep_nl_line_count, scanStep_nl_offsets]
      by_cases hm : (st.line_count + 1) % INDEX_INTERVAL = 0 <;>
        simp [hm, List.append_assoc]
    · rw [scanStep_of_ne data i st hb, nlPos_map_shift_ne t i hb]

lemma scanGo_total_lines (data : List Nat) :
    ∀ (rest : List Nat) (i : Nat) (st : ScanSt) (acc : List Nat),
      st.current_offset + acc.length = i →
      (scanGo data rest i st).line_count +
          (if (scanGo data rest i st).current_offset < i + rest.length then 1 else 0) =
        st.line_count + (linesGo rest acc).length
  | [], i, st, acc, h => by
    simp only [scanGo, List.length_nil, Nat.add_zero, linesGo]
    by_cases ha : acc = []
    · subst ha
      simp only [List.length_nil, Nat.add_zero] at h
      simp [h]
    · have : st.current_offset < i := by
        have : acc.length ≠ 0 := fun hl => ha (List.length_eq_zero.mp hl)
        omega
      simp [ha, this]
  | b :: t, i, st, acc, h => by
    rw [scanGo]
    by_cases hb : b = 10
    · subst hb
      have hrec := scanGo_total_lines data t (i + 1) (scanStep data 10 i st) [] (by
        rw [scanStep_nl_current_offset]; simp)
      rw [linesGo]
      have hlen : i + (10 :: t).length = (i + 1) + t.length := by simp; omega
      rw [hlen, hrec, scanStep_nl_line_count]
      simp only [List.length_cons]
      omega
    · have hrec := scanGo_total_lines data t (i + 1) (scanStep data b i st) (b :: acc) (by
        rw [scanStep_of_ne data i st hb]; simp; omega)
      have hgo : linesGo (b :: t) acc = linesGo t (b :: acc) := by
        rw [linesGo.eq_def]
        simp [hb]
      have hlen : i + (b :: t).length = (i + 1) + t.length := by simp; omega
      rw [hlen, hrec, scanStep_of_ne data i st hb, hgo]

lemma scanGo_maps (data : List Nat) :
    ∀ (rest : List Nat) (i : Nat) (st : ScanSt) (acc : List Nat),
      data.drop st.current_offset = acc ++ rest →
      i = st.current_offset + acc.length →
      ((scanGo data rest i st).categories, (scanGo data rest i st).level_counts) =
        List.foldl mapsStep (st.categories, st.level_counts) (termSegs acc rest)
  | [], i, st, acc, _, _ => by simp [scanGo, termSegs]
  | b :: t, i, st, acc, hdrop, hi => by
    rw [scanGo]
    by_cases hb : b = 10
    · subst hb
      have hslice : (data.drop st.current_offset).take (i - st.current_offset) = acc := by
        rw [hdrop, hi]
        simp
      have hstep_cats : (scanStep data 10 i st).categories = (mapsStep (st.categories, st.level_counts) acc).1 := by
        simp only [scanStep, if_pos rfl, hslice, mapsStep]
        by_cases hv : acc ≠ [] ∧ validUtf8 acc
        · have hlt : st.current_offset < i := by
            have : acc.length ≠ 0 := fun hl => hv.1 (List.length_eq_zero.mp hl)
            omega
          simp [hv, hlt, hv.1, hv.2]
        · have : ¬(st.current_offset < i ∧ validUtf8 acc = true) := by
            intro hc
            apply hv
            constructor
            · intro hacc
              rw [hacc] at hi
              simp at hi
              omega
            · exact hc.2
          simp [hv, this]
      have hstep_lvls : (scanStep data 10 i st).level_counts = (mapsStep (st.categories, st.level_counts) acc).2 := by
        simp only [scanStep, if_pos rfl, hslice, mapsStep]
        by_cases hv : acc ≠ [] ∧ validUtf8 acc
        · have hlt : st.current_offset < i := by
            have : acc.length ≠ 0 := fun hl => hv.1 (List.length_eq_zero.mp hl)
            omega
          simp [hv, hlt, hv.1, hv.2]
        · have : ¬(st.current_offset < i ∧ validUtf8 acc = true) := by
            intro hc
            apply hv
            constructor
            · intro hacc
              rw [hacc] at hi
              simp at hi
              omega
            · exact hc.2
          simp [hv, this]
      have hrec := scanGo_maps data t (i + 1) (scanStep data 10 i st) [] (by
          rw [scanStep_nl_current_offset]
          have : data.drop i = 10 :: t := by
            have := congrArg (List.drop acc.length) hdrop
            rw [List.drop_drop, List.drop_append_of_le_length (le_refl _)] at this
            simpa [hi, Nat.add_comm] using this
          rw [← List.drop_drop]
          simp [this])
        (by rw [scanStep_nl_current_offset]; simp)
      rw [show termSegs acc (10 :: t) = acc :: termSegs [] t by
            rw [termSegs.eq_def]; simp]
      rw [List.foldl_cons, hrec, hstep_cats, hstep_lvls]
    · have hgo : termSegs acc (b :: t) = termSegs (acc ++ [b]) t := by
        rw [termSegs.eq_def]
        simp [hb]
      have hrec := scanGo_maps data t (i + 1) (scanStep data b i st) (acc ++ [b]) (by
          rw [scanStep_of_ne data i st hb, hdrop]
          simp)
        (by rw [scanStep_of_ne data i st hb]; simp; omega)
      rw [hrec, scanStep_of_ne data i st hb, hgo]

lemma buildIndex_total_eq_rustLines (data : List Nat) :
    (buildIndex data).total_lines = (rustLines data).length := by
  have h := scanGo_total_lines data data 0 ⟨[0], 0, 0, [], []⟩ [] (by simp)
  simp only [List.length_nil, Nat.zero_add] at h
  simp only [buildIndex, build_index, rustLines]
  by_cases hc : (scanGo data data 0 ⟨[0], 0, 0, [], []⟩).current_offset < data.length <;>
    simp [hc] at h ⊢ <;> omega

lemma linesGo_length :
    ∀ (data acc : List Nat),
      (linesGo data acc).length =
        data.count 10 +
          (if data = [] then (if acc = [] then 0 else 1)
           else (if keepsTail data then 1 else 0))
  | [], acc => by
    by_cases ha : acc = [] <;> simp [linesGo, ha]
  | b :: t, acc => by
    rw [if_neg (List.cons_ne_nil b t)]
    by_cases hb : b = 10
    · subst hb
      rw [show linesGo (10 :: t) acc = stripCR acc.reverse :: linesGo t [] by
            rw [linesGo.eq_def]]
      rw [List.length_cons, linesGo_length t []]
      simp only [List.count_cons_self]
      cases t with
      | nil => simp [keepsTail]
      | cons c t' =>
        rw [show keepsTail (10 :: c :: t') = keepsTail (c :: t') by rw [keepsTail]]
        rw [if_neg (List.cons_ne_nil c t')]
        omega
    · rw [show linesGo (b :: t) acc = linesGo t (b :: acc) by
            rw [linesGo.eq_def]; simp [hb]]
      rw [linesGo_length t (b :: acc), List.count_cons_of_ne (fun h => hb h.symm)]
      cases t with
      | nil => simp [keepsTail, hb]
      | cons c t' =>
        rw [show keepsTail (b :: c :: t') = keepsTail (c :: t') by rw [keepsTail]]
        rw [if_neg (List.cons_ne_nil c t')]

lemma rustLines_length (data : List Nat) :
    (rustLines data).length = data.count 10 + (if keepsTail data then 1 else 0) := by
  rw [rustLines, linesGo_length data []]
  cases data with
  | nil => simp [keepsTail]
  | cons b t => rw [if_neg (List.cons_ne_nil b t)]

lemma map_add_zero (ps : List Nat) : ps.map (· + 0) = ps := by simp

lemma buildIndex_offsets (data : List Nat) :
    (buildIndex data).line_offsets = 0 :: pushes (nlPos data) 0 := by
  have h := scanGo_offsets data data 0 ⟨[0], 0, 0, [], []⟩
  simp only [map_add_zero] at h
  simp [buildIndex, build_index, h]

lemma buildIndex_maps (data : List Nat) :
    ((buildIndex data).categories, (buildIndex data).level_counts) =
      List.foldl mapsStep ([], []) (termSegs [] data) := by
  have h := scanGo_maps data data 0 ⟨[0], 0, 0, [], []⟩ [] (by simp) (by simp)
  simpa [buildIndex, build_index] using h

/-! ## Lemmas: newline positions and checkpoint pushes -/

lemma nlPos_length : ∀ data : List Nat, (nlPos data).length = data.count 10
  | [] => by simp [nlPos]
  | b :: t => by
    by_cases hb : b = 10
    · subst hb
      simp [nlPos, nlPos_length t, List.count_cons_self]
    · simp [nlPos, hb, nlPos_length t, List.count_cons_of_ne (fun h => hb h.symm)]

lemma nlPos_pairwise : ∀ data : List Nat, (nlPos data).Pairwise (· < ·)
  | [] => by simp [nlPos]
  | b :: t => by
    have hmap : ((nlPos t).map (· + 1)).Pairwise (· < ·) := by
      rw [List.pairwise_map]
      exact (nlPos_pairwise t).imp (by omega)
    by_cases hb : b = 10
    · rw [show nlPos (b :: t) = 0 :: (nlPos t).map (· + 1) by simp [nlPos, hb]]
      exact List.Pairwise.cons
        (fun x hx => by rcases List.mem_map.mp hx with ⟨a, _, rfl⟩; omega) hmap
    · rw [show nlPos (b :: t) = (nlPos t).map (· + 1) by simp [nlPos, hb]]
      exact hmap

lemma pushes_sublist : ∀ (ps : List Nat) (lc : Nat),
    (pushes ps lc).Sublist (ps.map (· + 1))
  | [], _ => by simp [pushes]
  | p :: t, lc => by
    rw [pushes, List.map_cons]
    by_cases hm : (lc + 1) % INDEX_INTERVAL = 0
    · rw [if_pos hm]
      exact (pushes_sublist t (lc + 1)).cons₂ (p + 1)
    · rw [if_neg hm]
      exact (pushes_sublist t (lc + 1)).cons (p + 1)

lemma pushes_mod : ∀ (ps : List Nat) (lc lc' : Nat),
    lc % INDEX_INTERVAL = lc' % INDEX_INTERVAL → pushes ps lc = pushes ps lc'
  | [], _, _, _ => rfl
  | p :: t, lc, lc', h => by
    have h1 : (lc + 1) % INDEX_INTERVAL = (lc' + 1) % INDEX_INTERVAL := by
      rw [Nat.add_mod lc 1, Nat.add_mod lc' 1, h]
    rw [pushes, pushes, h1, pushes_mod t (lc + 1) (lc' + 1) h1]

lemma pushes_advance : ∀ (ps : List Nat) (r : Nat), r < 1000 →
    pushes ps r =
      if 1000 - r ≤ ps.length then
        (ps.getD (999 - r) 0 + 1) :: pushes (ps.drop (1000 - r)) 0
      else []
  | [], r, hr => by
    rw [if_neg (by simp; omega)]
    rfl
  | p :: t, r, hr => by
    rw [pushes]
    by_cases h9 : r = 999
    · subst h9
      rw [if_pos (by decide)]
      rw [if_pos (by simp)]
      rw [pushes_mod t 1000 0 (by decide)]
      rfl
    · rw [if_neg (by show ¬(r + 1) % INDEX_INTERVAL = 0; simp [INDEX_INTERVAL]; omega)]
      rw [pushes_advance t (r + 1) (by omega)]
      have e2 : 999 - r = (999 - (r + 1)) + 1 := by omega
      have e3 : 1000 - r = (1000 - (r + 1)) + 1 := by omega
      by_cases hc : 1000 - (r + 1) ≤ t.length
      · rw [if_pos hc, if_pos (by simp; omega)]
        rw [e2, e3, List.getD_cons_succ, List.drop_succ_cons]
      · rw [if_neg hc, if_neg (by simp; omega)]

lemma pushes_length_zero (ps : List Nat) : (pushes ps 0).length = ps.length / 1000 := by
  suffices H : ∀ (n : Nat) (ps : List Nat), ps.length = n →
      (pushes ps 0).length = ps.length / 1000 from H ps.length ps rfl
  intro n
  induction n using Nat.strong_induction_on with
  | _ n ih =>
    intro ps hl
    rw [pushes_advance ps 0 (by omega)]
    by_cases h : 1000 ≤ ps.length
    · rw [if_pos (by omega), List.length_cons,
        ih (n - 1000) (by omega) (ps.drop 1000) (by simp [hl])]
      rw [List.length_drop]
      omega
    · rw [if_neg (by omega)]
      simp only [List.length_nil]
      omega

lemma pushes_get_zero : ∀ (k : Nat) (ps : List Nat),
    (pushes ps 0)[k]? = (ps[1000 * k + 999]?).map (· + 1)
  | 0, ps => by
    rw [pushes_advance ps 0 (by omega)]
    rw [show 1000 * 0 + 999 = 999 by omega]
    by_cases h : 1000 ≤ ps.length
    · rw [if_pos (by omega), List.getElem?_cons_zero]
      have h9 : 999 < ps.length := by omega
      rw [List.getElem?_eq_getElem h9]
      have hD : ps.getD 999 0 = ps[999] := by
        rw [List.getD_eq_getElem?_getD, List.getElem?_eq_getElem h9]
        rfl
      rw [hD]
      rfl
    · rw [if_neg (by omega)]
      rw [@List.getElem?_eq_none _ ps 999 (by omega)]
      rfl
  | k + 1, ps => by
    rw [pushes_advance ps 0 (by omega)]
    by_cases h : 1000 ≤ ps.length
    · rw [if_pos (by omega), List.getElem?_cons_succ, pushes_get_zero k (ps.drop 1000)]
      rw [List.getElem?_drop]
      rw [show 1000 + (1000 * k + 999) = 1000 * (k + 1) + 999 by ring]
    · rw [if_neg (by omega)]
      rw [@List.getElem?_eq_none _ ps (1000 * (k + 1) + 999) (by omega)]
      rfl

/-! ## Lemmas: dropping to a line start -/

lemma afterNL_zero (l : List Nat) : afterNL l 0 = l := by
  rw [afterNL.eq_def]
  cases l <;> rfl

lemma afterNL_cons_nl (t : List Nat) (m : Nat) :
    afterNL (10 :: t) (m + 1) = afterNL t m := by
  rw [afterNL.eq_def]
  simp

lemma afterNL_cons_ne {b : Nat} (t : List Nat) (m : Nat) (hb : b ≠ 10) :
    afterNL (b :: t) (m + 1) = afterNL t (m + 1) := by
  rw [afterNL.eq_def]
  simp [hb]

lemma linesGo_cons_nl (t acc : List Nat) :
    linesGo (10 :: t) acc = stripCR acc.reverse :: linesGo t [] := by
  rw [linesGo.eq_def]

lemma linesGo_cons_ne {b : Nat} (t acc : List Nat) (hb : b ≠ 10) :
    linesGo (b :: t) acc = linesGo t (b :: acc) := by
  rw [linesGo.eq_def]
  simp [hb]

lemma drop_nlPos : ∀ (data : List Nat) (q p : Nat),
    (nlPos data)[q]? = some p → data.drop (p + 1) = afterNL data (q + 1)
  | [], q, p, h => by simp [nlPos] at h
  | b :: t, q, p, h => by
    by_cases hb : b = 10
    · subst hb
      rw [show nlPos (10 :: t) = 0 :: (nlPos t).map (· + 1) by simp [nlPos]] at h
      cases q with
      | zero =>
        rw [List.getElem?_cons_zero] at h
        cases h
        rw [afterNL_cons_nl, afterNL_zero]
        rfl
      | succ q' =>
        rw [List.getElem?_cons_succ, List.getElem?_map] at h
        cases hq : (nlPos t)[q']? with
        | none => rw [hq] at h; simp at h
        | some p' =>
          rw [hq] at h
          simp at h
          rw [afterNL_cons_nl]
          rw [← drop_nlPos t q' p' hq, ← h, List.drop_succ_cons]
    · rw [show nlPos (b :: t) = (nlPos t).map (· + 1) by simp [nlPos, hb]] at h
      rw [List.getElem?_map] at h
      cases hq : (nlPos t)[q]? with
      | none => rw [hq] at h; simp at h
      | some p' =>
        rw [hq] at h
        simp at h
        rw [afterNL_cons_ne t q hb]
        rw [← drop_nlPos t q p' hq, ← h, List.drop_succ_cons]

lemma linesGo_drop_one : ∀ (t acc acc' : List Nat),
    (linesGo t acc).drop 1 = (linesGo t acc').drop 1
  | [], acc, acc' => by
    by_cases ha : acc = [] <;> by_cases ha' : acc' = [] <;> simp [linesGo, ha, ha']
  | b :: t, acc, acc' => by
    by_cases hb : b = 10
    · subst hb
      rw [linesGo_cons_nl, linesGo_cons_nl]
      simp
    · rw [linesGo_cons_ne t acc hb, linesGo_cons_ne t acc' hb]
      exact linesGo_drop_one t (b :: acc) (b :: acc')

lemma rustLines_afterNL : ∀ (data : List Nat) (m : Nat),
    rustLines (afterNL data m) = (rustLines data).drop m
  | data, 0 => by rw [afterNL_zero, List.drop_zero]
  | [], m + 1 => by
    rw [afterNL.eq_def]
    simp [rustLines, linesGo]
  | b :: t, m + 1 => by
    by_cases hb : b = 10
    · subst hb
      rw [afterNL_cons_nl, rustLines_afterNL t m]
      rw [show rustLines (10 :: t) = stripCR [] :: linesGo t [] by
            rw [rustLines, linesGo_cons_nl]; rfl]
      rw [List.drop_succ_cons]
      rfl
    · rw [afterNL_cons_ne t m hb, rustLines_afterNL t (m + 1)]
      rw [show rustLines (b :: t) = linesGo t [b] by
            rw [rustLines, linesGo_cons_ne t [] hb]]
      rw [rustLines]
      rw [show m + 1 = 1 + m by omega, ← List.drop_drop, ← List.drop_drop]
      rw [linesGo_drop_one t [b] []]

/-! ## Lemmas: the reader's parse loop -/

lemma rrLoop_entries_phase2 (ci a b : Nat) :
    ∀ (L : List (List Nat)) (c : Nat) (acc chunkE : List LogEntry) (st : ReaderSt),
      a - 1 ≤ c → c < b → b ≤ c + L.length →
      (rrLoop ci a b L c acc chunkE st).1 =
        acc ++ (List.range (b - c)).map (fun j => parse_line (c + 1 + j) (L.getD j []))
  | [], c, acc, chunkE, st, _, h2, h3 => by
    simp only [List.length_nil, Nat.add_zero] at h3
    omega
  | l :: rest, c, acc, chunkE, st, h1, h2, h3 => by
    rw [rrLoop]
    simp only [if_pos (show a ≤ c + 1 ∧ c + 1 ≤ b by omega)]
    by_cases hbr : b ≤ c + 1
    · rw [if_pos hbr]
      rw [show b - c = 1 by omega, show List.range 1 = [0] from rfl]
      simp
    · have hre : ∀ (ch : List LogEntry) (st' : ReaderSt),
          (rrLoop ci a b rest (c + 1) (acc ++ [parse_line (c + 1) l]) ch st').1 =
            acc ++ (List.range (b - c)).map
              (fun j => parse_line (c + 1 + j) ((l :: rest).getD j [])) := by
        intro ch st'
        rw [rrLoop_entries_phase2 ci a b rest (c + 1) _ ch st' (by omega) (by omega)
          (by simp only [List.length_cons] at h3; omega)]
        rw [List.append_assoc]
        congr 1
        rw [show b - c = (b - (c + 1)) + 1 by omega, List.range_succ_eq_map,
          List.map_cons, List.map_map]
        simp only [Nat.add_zero, List.getD_cons_zero, List.singleton_append]
        congr 1
        apply List.map_congr_left
        intro j _
        simp only [Function.comp_apply, List.getD_cons_succ]
        rw [show c + 1 + Nat.succ j = c + 1 + 1 + j by omega]
      rw [if_neg hbr]
      by_cases hch : INDEX_INTERVAL ≤ (chunkE ++ [parse_line (c + 1) l]).length
      · rw [if_pos hch]
        exact hre [] _
      · rw [if_neg hch]
        exact hre _ _

lemma rrLoop_entries_phase1 (ci a b : Nat) :
    ∀ (L : List (List Nat)) (c : Nat) (acc chunkE : List LogEntry) (st : ReaderSt),
      c < a → a ≤ b → b ≤ c + L.length →
      (rrLoop ci a b L c acc chunkE st).1 =
        acc ++ (List.range (b - a + 1)).map
          (fun j => parse_line (a + j) (L.getD (a - 1 - c + j) []))
  | [], c, acc, chunkE, st, h1, h2, h3 => by
    simp only [List.length_nil, Nat.add_zero] at h3
    omega
  | l :: rest, c, acc, chunkE, st, h1, h2, h3 => by
    rw [rrLoop]
    by_cases ha : c + 1 = a
    · simp only [if_pos (show a ≤ c + 1 ∧ c + 1 ≤ b by omega)]
      by_cases hbr : b ≤ c + 1
      · rw [if_pos hbr]
        have hab : a = b := by omega
        rw [show b - a + 1 = 1 by omega, show List.range 1 = [0] from rfl]
        simp only [List.map_cons, List.map_nil]
        rw [show a - 1 - c + 0 = 0 by omega, List.getD_cons_zero,
          show a + 0 = c + 1 by omega]
      · have hre : ∀ (ch : List LogEntry) (st' : ReaderSt),
            (rrLoop ci a b rest (c + 1) (acc ++ [parse_line (c + 1) l]) ch st').1 =
              acc ++ (List.range (b - a + 1)).map
                (fun j => parse_line (a + j) ((l :: rest).getD (a - 1 - c + j) [])) := by
          intro ch st'
          rw [rrLoop_entries_phase2 ci a b rest (c + 1) _ ch st' (by omega) (by omega)
            (by simp only [List.length_cons] at h3; omega)]
          rw [List.append_assoc]
          congr 1
          rw [show b - a + 1 = (b - (c + 1)) + 1 by omega, List.range_succ_eq_map,
            List.map_cons, List.map_map]
          simp only [List.singleton_append]
          congr 1
          · rw [show a - 1 - c + 0 = 0 by omega, List.getD_cons_zero,
              show a + 0 = c + 1 by omega]
          · apply List.map_congr_left
            intro j _
            simp only [Function.comp_apply]
            rw [show a - 1 - c + Nat.succ j = (a - 1 - c + j) + 1 by omega,
              List.getD_cons_succ]
            rw [show a + Nat.succ j = c + 1 + 1 + j by omega,
              show a - 1 - c + j = j by omega]
        rw [if_neg hbr]
        by_cases hch : INDEX_INTERVAL ≤ (chunkE ++ [parse_line (c + 1) l]).length
        · rw [if_pos hch]
          exact hre [] _
        · rw [if_neg hch]
          exact hre _ _
    · -- still before the window: the entry is not collected
      simp only [if_neg (show ¬(a ≤ c + 1 ∧ c + 1 ≤ b) by omega)]
      have hre : ∀ (ch : List LogEntry) (st' : ReaderSt),
          (rrLoop ci a b rest (c + 1) acc ch st').1 =
            acc ++ (List.range (b - a + 1)).map
              (fun j => parse_line (a + j) ((l :: rest).getD (a - 1 - c + j) [])) := by
        intro ch st'
        rw [rrLoop_entries_phase1 ci a b rest (c + 1) acc ch st' (by omega) h2
          (by simp only [List.length_cons] at h3; omega)]
        congr 1
        apply List.map_congr_left
        intro j _
        rw [show a - 1 - c + j = (a - 1 - (c + 1) + j) + 1 by omega,
          List.getD_cons_succ]
      rw [if_neg (by omega)]
      by_cases hch : INDEX_INTERVAL ≤ (chunkE ++ [parse_line (c + 1) l]).length
      · rw [if_pos hch]
        exact hre [] _
      · rw [if_neg hch]
        exact hre _ _

lemma getD_drop (l : List (List Nat)) (n m : Nat) (d : List Nat) :
    (l.drop n).getD m d = l.getD (n + m) d := by
  rw [List.getD_eq_getElem?_getD, List.getD_eq_getElem?_getD, List.getElem?_drop]

/-- Tail bound used to relate `total_lines` and the newline count. -/
lemma tail_le_one (data : List Nat) : (if keepsTail data then 1 else 0) ≤ 1 := by
  by_cases h : keepsTail data <;> simp [h]

/-- Cache-miss `read_range` on any reader state: for a start line that is
not a positive multiple of the interval, the returned entries are exactly
lines `a..b` parsed with their own line numbers. -/
lemma readRangeMiss_entries (data : List Nat) (a b ci : Nat) (st : ReaderSt)
    (h1 : 1 ≤ a) (h2 : a ≤ b) (h3 : b ≤ (buildIndex data).total_lines)
    (h4 : a % INDEX_INTERVAL ≠ 0) :
    (readRangeMiss data (buildIndex data) st a b ci).1.entries =
      (List.range (b - a + 1)).map
        (fun j => parse_line (a + j) ((rustLines data).getD (a - 1 + j) [])) := by
  have hI : INDEX_INTERVAL = 1000 := rfl
  rw [hI] at h4
  have htot : (buildIndex data).total_lines = (rustLines data).length :=
    buildIndex_total_eq_rustLines data
  have hN : (nlPos data).length = data.count 10 := nlPos_length data
  have hlines : (rustLines data).length =
      data.count 10 + (if keepsTail data then 1 else 0) := rustLines_length data
  have htail := tail_le_one data
  have hbN : b ≤ (rustLines data).length := htot ▸ h3
  have haN : a - 1 ≤ data.count 10 := by omega
  have hka : 1000 * (a / 1000) ≤ a - 1 := by omega
  have hoffs : (buildIndex data).line_offsets = 0 :: pushes (nlPos data) 0 :=
    buildIndex_offsets data
  have hofflen : (buildIndex data).line_offsets.length = 1 + data.count 10 / 1000 := by
    rw [hoffs, List.length_cons, pushes_length_zero, hN]
    omega
  have hkidx : readerOffsetIndex a = a / 1000 := by rw [readerOffsetIndex, hI]
  have hkb : readerOffsetIndex a < (buildIndex data).line_offsets.length := by
    rw [hofflen, hkidx]
    omega
  simp only [readRangeMiss, if_pos hkb]
  rw [hkidx]
  by_cases hk0 : a / 1000 = 0
  · -- first chunk: seek offset 0
    rw [hk0, hoffs, List.getD_cons_zero, List.drop_zero]
    rw [rrLoop_entries_phase1 ci a b (rustLines data) (0 * INDEX_INTERVAL)
      [] [] st (by rw [hI]; omega) h2 (by rw [hI]; simp; omega)]
    rw [List.nil_append]
    apply List.map_congr_left
    intro j _
    rw [show a - 1 - 0 * INDEX_INTERVAL + j = a - 1 + j by rw [hI]; omega]
  · -- later chunk: seek one past the (1000k)-th newline
    have hk1 : 1 ≤ a / 1000 := by omega
    have hqlt : 1000 * (a / 1000) - 1 < (nlPos data).length := by rw [hN]; omega
    obtain ⟨p, hp⟩ : ∃ p, (nlPos data)[1000 * (a / 1000) - 1]? = some p :=
      ⟨_, List.getElem?_eq_getElem hqlt⟩
    have hfo : (buildIndex data).line_offsets.getD (a / 1000) 0 = p + 1 := by
      rw [hoffs, show a / 1000 = (a / 1000 - 1) + 1 by omega, List.getD_cons_succ,
        List.getD_eq_getElem?_getD, pushes_get_zero,
        show 1000 * (a / 1000 - 1) + 999 = 1000 * (a / 1000) - 1 by omega, hp]
      rfl
    have hdrop : data.drop (p + 1) = afterNL data (1000 * (a / 1000)) := by
      have h := drop_nlPos data (1000 * (a / 1000) - 1) p hp
      rwa [show 1000 * (a / 1000) - 1 + 1 = 1000 * (a / 1000) by omega] at h
    rw [hfo, hdrop, rustLines_afterNL]
    rw [rrLoop_entries_phase1 ci a b
      ((rustLines data).drop (1000 * (a / 1000))) ((a / 1000) * INDEX_INTERVAL) [] [] st
      (by rw [hI]; omega) h2
      (by rw [hI, List.length_drop]; omega)]
    rw [List.nil_append]
    apply List.map_congr_left
    intro j _
    rw [getD_drop]
    rw [show 1000 * (a / 1000) + (a - 1 - (a / 1000) * INDEX_INTERVAL + j) = a - 1 + j by
      rw [hI]; omega]

/-- `read_range` on a reader with an empty cache: for `1 ≤ a ≤ b ≤ total`
with `a` not a positive multiple of the interval, the entries are exactly
lines `a..b`, parsed, in order. -/
lemma read_range_cold_entries (data : List Nat) (a b : Nat)
    (h1 : 1 ≤ a) (h2 : a ≤ b) (h3 : b ≤ (buildIndex data).total_lines)
    (h4 : a % INDEX_INTERVAL ≠ 0) :
    (read_range data (buildIndex data) emptyReader a b).1.entries =
      (List.range (b - a + 1)).map
        (fun j => parse_line (a + j) ((rustLines data).getD (a - 1 + j) [])) := by
  rw [read_range]
  simp only [emptyReader]
  rw [Nat.max_eq_left h1, Nat.min_eq_left h3]
  rw [if_neg (by omega : ¬ b < a)]
  simp only [List.lookup]
  exact readRangeMiss_entries data a b (readerOffsetIndex a) ⟨[], 0⟩ h1 h2 h3 h4

/-- Every branch of the classifier keeps the caller's line number, stores
the trimmed text as `raw`, and marks exactly the continuation branch. -/
lemma parse_line_proj (n : Nat) (l : List Nat) :
    (parse_line n l).line_number = n ∧ (parse_line n l).raw = trimEnd l ∧
      (parse_line n l).is_continuation = isContinuation (trimEnd l) := by
  rw [parse_line]
  cases hc : isContinuation (trimEnd l)
  · cases hs : matchStandard (trimEnd l) with
    | some v =>
      obtain ⟨ts, fr, cat, lvl, msg⟩ := v
      simp [hc, hs]
    | none =>
      cases hs2 : matchSimple (trimEnd l) with
      | some v =>
        obtain ⟨cat, lvl, msg⟩ := v
        simp [hc, hs, hs2]
      | none =>
        cases hh : matchHeader (trimEnd l) <;>
          simp [hc, hs, hs2, hh, LogEntry.rawEntry]
  · simp [hc]

lemma parse_line_line_number (n : Nat) (l : List Nat) :
    (parse_line n l).line_number = n := (parse_line_proj n l).1

/-! ## Claim theorems -/

set_option maxRecDepth 1000000

/-- C1 (counterexample): `read_range` does not satisfy the claim as stated.
With a warm cache produced by an earlier `read_range(1, 5)`, the call
`read_range(3, 9)` on a 9-line file returns the 3 cached in-window entries
instead of 9 − 3 + 1 = 7; and even on an empty cache, `read_range(1000, 1000)`
on a 1000-line file returns 0 entries instead of 1, because the reader
computes the checkpoint as `1000 / 1000 = 1` and seeks past line 1000. -/
theorem c1_counterexample :
    ((read_range c1File9 (buildIndex c1File9)
        (read_range c1File9 (buildIndex c1File9) emptyReader 1 5).2
        3 9).1.entries.length = 3 ∧ (3 : Nat) ≠ 9 - 3 + 1) ∧
    ((read_range c1File1000 (buildIndex c1File1000)
        emptyReader 1000 1000).1.entries.length = 0 ∧ (0 : Nat) ≠ 1000 - 1000 + 1) := by
  constructor
  · constructor
    · decide
    · decide
  · constructor
    · decide
    · decide

/-- C1 (amended): for a valid-UTF-8 file (so that `BufRead::lines` itself
cannot fail with `InvalidData`, an io error path outside this byte-level
model) and `1 ≤ a ≤ b ≤ total_lines` with `a` not a positive multiple of
the checkpoint interval (1000), `read_range(a, b)` on a reader whose cache
is empty returns exactly `b − a + 1` entries, each with `line_number` in
`[a, b]`, in strictly increasing order. -/
theorem c1_amended_theorem (data : List Nat) (a b : Nat)
    (hv : validUtf8 data = true)
    (h1 : 1 ≤ a) (h2 : a ≤ b) (h3 : b ≤ (buildIndex data).total_lines)
    (h4 : a % INDEX_INTERVAL ≠ 0) :
    (read_range data (buildIndex data) emptyReader a b).1.entries.length = b - a + 1 ∧
    (∀ e ∈ (read_range data (buildIndex data) emptyReader a b).1.entries,
      a ≤ e.line_number ∧ e.line_number ≤ b) ∧
    (read_range data (buildIndex data) emptyReader a b).1.entries.Pairwise
      (fun e1 e2 => e1.line_number < e2.line_number) := by
  rw [read_range_cold_entries data a b h1 h2 h3 h4]
  refine ⟨?_, ?_, ?_⟩
  · simp
  · intro e he
    rcases List.mem_map.mp he with ⟨j, hj, rfl⟩
    rw [parse_line_line_number]
    have := List.mem_range.mp hj
    omega
  · rw [List.pairwise_map]
    exact (List.pairwise_lt_range _).imp
      (fun hij => by rw [parse_line_line_number, parse_line_line_number]; omega)

/-- C1 (witness): the amended theorem applied to a concrete 2-line file. -/
theorem c1_witness :
    (read_range (bytes "p\nq\n") (buildIndex (bytes "p\nq\n"))
        emptyReader 1 2).1.entries.length = 2 - 1 + 1 ∧
    (∀ e ∈ (read_range (bytes "p\nq\n") (buildIndex (bytes "p\nq\n"))
        emptyReader 1 2).1.entries, 1 ≤ e.line_number ∧ e.line_number ≤ 2) ∧
    (read_range (bytes "p\nq\n") (buildIndex (bytes "p\nq\n"))
        emptyReader 1 2).1.entries.Pairwise
      (fun e1 e2 => e1.line_number < e2.line_number) :=
  c1_amended_theorem (bytes "p\nq\n") 1 2 (by decide) (by decide) (by decide) (by decide)
    (by decide)

/-- C6: the index's total line count equals the number of
newline-terminated lines plus one when trailing bytes follow the last
newline. -/
theorem c6_total_lines (data : List Nat) :
    (buildIndex data).total_lines =
      data.count 10 + (if keepsTail data then 1 else 0) := by
  rw [buildIndex_total_eq_rustLines, rustLines_length]

/-- C7: `line_offsets[0] = 0`, the offsets are strictly increasing, and for
every `k` such that line `k*1000 + 1` exists, `line_offsets[k]` is the byte
offset of the first byte of that line. -/
theorem c7_line_offsets (data : List Nat) :
    (buildIndex data).line_offsets[0]? = some 0 ∧
    (buildIndex data).line_offsets.Pairwise (· < ·) ∧
    ∀ k, k * INDEX_INTERVAL + 1 ≤ (buildIndex data).total_lines →
      (buildIndex data).line_offsets[k]? = some (lineStart data (k * INDEX_INTERVAL + 1)) := by
  have hI : INDEX_INTERVAL = 1000 := rfl
  have hN : (nlPos data).length = data.count 10 := nlPos_length data
  have htot := c6_total_lines data
  have htail := tail_le_one data
  refine ⟨?_, ?_, ?_⟩
  · rw [buildIndex_offsets, List.getElem?_cons_zero]
  · rw [buildIndex_offsets]
    refine List.Pairwise.cons ?_ ?_
    · intro x hx
      have hx2 : x ∈ (nlPos data).map (· + 1) :=
        (pushes_sublist (nlPos data) 0).subset hx
      rcases List.mem_map.mp hx2 with ⟨q, _, rfl⟩
      omega
    · exact (List.pairwise_map.mpr
        ((nlPos_pairwise data).imp (fun h => by omega))).sublist
        (pushes_sublist (nlPos data) 0)
  · intro k hk
    rw [hI] at hk
    rw [buildIndex_offsets]
    cases k with
    | zero =>
      rw [List.getElem?_cons_zero]
      simp [lineStart, hI]
    | succ k' =>
      have hkN : 1000 * (k' + 1) ≤ data.count 10 := by omega
      have hqlt : 1000 * (k' + 1) - 1 < (nlPos data).length := by omega
      obtain ⟨p, hp⟩ : ∃ p, (nlPos data)[1000 * (k' + 1) - 1]? = some p :=
        ⟨_, List.getElem?_eq_getElem hqlt⟩
      rw [List.getElem?_cons_succ, pushes_get_zero,
        show 1000 * k' + 999 = 1000 * (k' + 1) - 1 by omega, hp]
      rw [lineStart, if_neg (by rw [hI]; omega)]
      rw [show (k' + 1) * INDEX_INTERVAL + 1 - 2 = 1000 * (k' + 1) - 1 by rw [hI]; omega]
      rw [List.getD_eq_getElem?_getD, hp]
      rfl

/-- C7 (witness): the theorem applied to a 1001-line file at `k = 1` (and a
2-line file at `k = 0`). -/
theorem c7_witness :
    (buildIndex c1File1001).line_offsets[1]? =
      some (lineStart c1File1001 (1 * INDEX_INTERVAL + 1)) ∧
    (buildIndex (bytes "p\nq\n")).line_offsets[0]? =
      some (lineStart (bytes "p\nq\n") (0 * INDEX_INTERVAL + 1)) :=
  ⟨(c7_line_offsets c1File1001).2.2 1 (by decide),
   (c7_line_offsets (bytes "p\nq\n")).2.2 0 (by decide)⟩

lemma foldl_eraseIdx_id {α β : Type} (f : β → α → β) :
    ∀ (l : List α) (j : Nat) (x : α), l[j]? = some x → (∀ m, f m x = m) →
      ∀ acc, l.foldl f acc = (l.eraseIdx j).foldl f acc
  | [], j, x, h, _, acc => by simp at h
  | y :: t, 0, x, h, hfix, acc => by
    rw [List.getElem?_cons_zero] at h
    cases h
    rw [show (y :: t).eraseIdx 0 = t from rfl, List.foldl_cons, hfix acc]
  | y :: t, j + 1, x, h, hfix, acc => by
    rw [List.getElem?_cons_succ] at h
    rw [show (y :: t).eraseIdx (j + 1) = y :: t.eraseIdx j from rfl,
      List.foldl_cons, List.foldl_cons]
    exact foldl_eraseIdx_id f t j x h hfix (f acc y)

/-- C9: a line whose bytes are not valid UTF-8 does not abort the scan:
`build_index` still counts every line (`total_lines` is the full count) and
still records every checkpoint (the offsets depend only on the newline
positions), but the invalid line contributes nothing to the category/level
count maps (the maps equal the fold over the terminated lines with the
invalid one removed). -/
theorem c9_invalid_utf8_resilience (data : List Nat) (j : Nat) (seg : List Nat)
    (hj : (termSegs [] data)[j]? = some seg) (hinv : validUtf8 seg = false) :
    (buildIndex data).total_lines =
      data.count 10 + (if keepsTail data then 1 else 0) ∧
    (buildIndex data).line_offsets = 0 :: pushes (nlPos data) 0 ∧
    ((buildIndex data).categories, (buildIndex data).level_counts) =
      List.foldl mapsStep ([], []) ((termSegs [] data).eraseIdx j) := by
  refine ⟨?_, buildIndex_offsets data, ?_⟩
  · rw [buildIndex_total_eq_rustLines, rustLines_length]
  · rw [buildIndex_maps data]
    exact foldl_eraseIdx_id mapsStep (termSegs [] data) j seg hj
      (fun m => by simp [mapsStep, hinv]) ([], [])

/-- C9 (witness): a 2-line file whose first line is the invalid byte 0xFF;
the second line's category is still counted, the first contributes nothing. -/
theorem c9_witness :
    (buildIndex ([255, 10] ++ bytes "LogX: Error: m\n")).total_lines =
      ([255, 10] ++ bytes "LogX: Error: m\n").count 10 +
        (if keepsTail ([255, 10] ++ bytes "LogX: Error: m\n") then 1 else 0) ∧
    (buildIndex ([255, 10] ++ bytes "LogX: Error: m\n")).line_offsets =
      0 :: pushes (nlPos ([255, 10] ++ bytes "LogX: Error: m\n")) 0 ∧
    ((buildIndex ([255, 10] ++ bytes "LogX: Error: m\n")).categories,
      (buildIndex ([255, 10] ++ bytes "LogX: Error: m\n")).level_counts) =
      List.foldl mapsStep ([], [])
        ((termSegs [] ([255, 10] ++ bytes "LogX: Error: m\n")).eraseIdx 0) :=
  c9_invalid_utf8_resilience ([255, 10] ++ bytes "LogX: Error: m\n") 0 [255]
    (by decide) (by decide)

/-- C10: `search_next_page` has the unstated precondition `from_line ≥ 1`:
at `from_line = 0` the `u64` computation `from_line - 1` underflows (modelled
as `none`, the panic of checked builds), and for every `from_line ≥ 1` the
call is well defined. -/
theorem c10_from_line_precondition :
    (∀ (eng : SearchEngine) (data : List Nat) (idx : FileIndex) (mx : Nat),
      search_next_page eng data idx 0 mx = none) ∧
    (∀ (eng : SearchEngine) (data : List Nat) (idx : FileIndex) (fl mx : Nat),
      1 ≤ fl → (search_next_page eng data idx fl mx).isSome = true) := by
  constructor
  · intro eng data idx mx
    rw [search_next_page, search_next_page_traced, if_pos rfl]
    rfl
  · intro eng data idx fl mx h
    rw [search_next_page, search_next_page_traced, if_neg (by omega)]
    rfl

/-- C10 (witness): the theorem applied at a concrete engine and file. -/
theorem c10_witness :
    search_next_page (SearchEngine.newLiteral [97] false) [] (buildIndex []) 0 5 = none ∧
    (search_next_page (SearchEngine.newLiteral [97] false) [] (buildIndex []) 1 5).isSome
      = true :=
  ⟨c10_from_line_precondition.1 (SearchEngine.newLiteral [97] false) [] (buildIndex []) 5,
   c10_from_line_precondition.2 (SearchEngine.newLiteral [97] false) [] (buildIndex []) 1 5
     (by decide)⟩

/-- C3 (counterexample): at `start_line = 1000` the reader computes
checkpoint index `1000 / 1000 = 1` while the search engine computes
`(1000 - 1) / 1000 = 0`, so they do not select the same `line_offsets`
entry for every `start_line`. -/
theorem c3_counterexample :
    readerOffsetIndex 1000 = 1 ∧ searchOffsetIndex 1000 = 0 ∧
      readerOffsetIndex 1000 ≠ searchOffsetIndex 1000 := by decide

/-- C3 (amended): the reader's and the search engine's checkpoint-index
computations agree for every `start_line ≥ 1` that is not a multiple of the
interval; at positive multiples the reader's index is one greater (the
checkpoint after `start_line`). -/
theorem c3_amended_theorem (s : Nat) (h1 : 1 ≤ s) :
    (s % INDEX_INTERVAL ≠ 0 → readerOffsetIndex s = searchOffsetIndex s) ∧
    (s % INDEX_INTERVAL = 0 → readerOffsetIndex s = searchOffsetIndex s + 1) := by
  have hI : INDEX_INTERVAL = 1000 := rfl
  rw [readerOffsetIndex, searchOffsetIndex, hI]
  constructor <;> intro h <;> omega

/-- C3 (witness): the amended theorem at `start_line = 5` and `2000`. -/
theorem c3_witness :
    (5 % INDEX_INTERVAL ≠ 0 → readerOffsetIndex 5 = searchOffsetIndex 5) ∧
    (2000 % INDEX_INTERVAL = 0 → readerOffsetIndex 2000 = searchOffsetIndex 2000 + 1) :=
  ⟨(c3_amended_theorem 5 (by decide)).1,
   (c3_amended_theorem 2000 (by decide)).2⟩

/-- C4 (code bug): the offsets stored in `SearchResult` are byte offsets,
not character positions. Searching the line "éb" (UTF-8 bytes C3 A9 62) for
the literal "b" records `start = 2`, `end = 3` (byte offsets of
`m.start()`/`m.end()`), while the character positions into the line are 1
and 2 — contradicting both the specification and the field's own
documentation (`字符偏移`, "character offset", `types.rs` lines 135-139). -/
theorem c4_byte_offsets :
    search_in_string (SearchEngine.newLiteral [98] false) [195, 169, 98] 1 =
      [⟨1, [98], 2, 3⟩] ∧
    charPos [195, 169, 98] 2 = 1 ∧ charPos [195, 169, 98] 3 = 2 ∧
    (2 : Nat) ≠ 1 := by decide

/-! ## Lemmas: the paginated search loop -/

lemma snpLoop_inspected (eng : SearchEngine) (fl el mx : Nat) :
    ∀ (L : List (List Nat)) (c : Nat) (res : List SearchResult)
      (insp : List (Nat × Nat)),
      (∀ pr ∈ insp, fl ≤ pr.1 ∧ pr.1 ≤ el) →
      ∀ pr ∈ (snpLoop eng fl el mx L c res insp).2, fl ≤ pr.1 ∧ pr.1 ≤ el
  | [], c, res, insp, hinv => by
    rw [snpLoop]
    exact hinv
  | l :: rest, c, res, insp, hinv => by
    rw [snpLoop]
    by_cases hbr : el < c + 1 ∨ mx ≤ res.length
    · rw [if_pos hbr]
      exact hinv
    · rw [if_neg hbr]
      by_cases hskip : c + 1 < fl
      · rw [if_pos hskip]
        exact snpLoop_inspected eng fl el mx rest (c + 1) res insp hinv
      · rw [if_neg hskip]
        refine snpLoop_inspected eng fl el mx rest (c + 1) _ _ ?_
        intro pr hpr
        rcases List.mem_append.mp hpr with h | h
        · exact hinv pr h
        · rcases List.mem_singleton.mp h with rfl
          exact ⟨by omega, by omega⟩

lemma snpLoop_good (eng : SearchEngine) (fl el mx : Nat) :
    ∀ (L : List (List Nat)) (c : Nat) (res : List SearchResult)
      (insp : List (Nat × Nat)),
      snpGood mx res insp →
      snpGood mx (snpLoop eng fl el mx L c res insp).1
        (snpLoop eng fl el mx L c res insp).2
  | [], c, res, insp, hg => by
    rw [snpLoop]
    exact hg
  | l :: rest, c, res, insp, hg => by
    rw [snpLoop]
    by_cases hbr : el < c + 1 ∨ mx ≤ res.length
    · rw [if_pos hbr]
      exact hg
    · rw [if_neg hbr]
      by_cases hskip : c + 1 < fl
      · rw [if_pos hskip]
        exact snpLoop_good eng fl el mx rest (c + 1) res insp hg
      · rw [if_neg hskip]
        refine snpLoop_good eng fl el mx rest (c + 1) _ _ ?_
        right
        refine ⟨(c + 1, (search_in_string eng l (c + 1)).length), ?_, ?_⟩
        · rw [List.getLast?_concat]
        · rw [List.length_append]
          omega

/-- C2 (counterexample): `search_next_page` can return more than
`max_results` results: with `max_results = 1`, a literal search for "a" over
the single line "aaa" returns all 3 matches of the first inspected line. -/
theorem c2_counterexample :
    (search_next_page (SearchEngine.newLiteral [97] false) [97, 97, 97]
        (buildIndex [97, 97, 97]) 1 1).map List.length = some 3 ∧
    ¬(3 : Nat) ≤ 1 := by decide

/-- C2 (amended): for a valid-UTF-8 file (so that `BufRead::lines` itself
cannot fail, an io error path outside this byte-level model) and
`from_line ≥ 1`, `search_next_page` never applies the pattern to a line
numbered outside `[from_line, from_line + 10000]`, and it stops scanning
further lines once `max_results` results are collected: the result count is
at most `max_results` unless the excess comes entirely from the matches of
the last inspected line. -/
theorem c2_amended_theorem (eng : SearchEngine) (data : List Nat)
    (idx : FileIndex) (fl mx : Nat) (hv : validUtf8 data = true) (h1 : 1 ≤ fl) :
    ∃ res insp, search_next_page_traced eng data idx fl mx = some (res, insp) ∧
      search_next_page eng data idx fl mx = some res ∧
      (∀ pr ∈ insp, fl ≤ pr.1 ∧ pr.1 ≤ fl + 10000) ∧
      (res.length ≤ mx ∨ ∃ pr, insp.getLast? = some pr ∧ res.length < mx + pr.2) := by
  rw [search_next_page, search_next_page_traced, if_neg (by omega)]
  refine ⟨_, _, rfl, rfl, ?_, ?_⟩
  · intro pr hpr
    have h := snpLoop_inspected eng fl (min (fl + 10000) idx.total_lines) mx
      (rustLines (data.drop (if searchOffsetIndex fl < idx.line_offsets.length then
        idx.line_offsets.getD (searchOffsetIndex fl) 0 else 0)))
      (searchOffsetIndex fl * INDEX_INTERVAL) [] [] (by simp) pr hpr
    exact ⟨h.1, by omega⟩
  · exact snpLoop_good eng fl (min (fl + 10000) idx.total_lines) mx _ _ [] []
      (Or.inl (by simp))

/-- C2 (witness): the amended theorem at a concrete literal search. -/
theorem c2_witness :
    ∃ res insp, search_next_page_traced (SearchEngine.newLiteral [97] false) [97, 97, 97]
        (buildIndex [97, 97, 97]) 1 5 = some (res, insp) ∧
      search_next_page (SearchEngine.newLiteral [97] false) [97, 97, 97]
        (buildIndex [97, 97, 97]) 1 5 = some res ∧
      (∀ pr ∈ insp, 1 ≤ pr.1 ∧ pr.1 ≤ 1 + 10000) ∧
      (res.length ≤ 5 ∨ ∃ pr, insp.getLast? = some pr ∧ res.length < 5 + pr.2) :=
  c2_amended_theorem (SearchEngine.newLiteral [97] false) [97, 97, 97]
    (buildIndex [97, 97, 97]) 1 5 (by decide) (by decide)

/-- C5: the example line classifies to the exact claimed entry for every
line number, and classification is total with the continuation test decided
first: every input yields an entry carrying the caller's line number, the
trimmed text as `raw`, and a continuation flag equal to the continuation
test (so the later formats can never mark a line as continuation, and a
continuation line never reaches them). -/
theorem c5_classification :
    (∀ n : Nat, parse_line n c5Line =
      ⟨n, c5Line, some (bytes "2026.02.14-03.33.56:070"), some 0,
        some (bytes "LogWindows"), .error, some (bytes "Test error message"), false⟩) ∧
    (∀ (n : Nat) (l : List Nat),
      (parse_line n l).line_number = n ∧ (parse_line n l).raw = trimEnd l ∧
        (parse_line n l).is_continuation = isContinuation (trimEnd l)) ∧
    (∀ (n : Nat) (l : List Nat), isContinuation (trimEnd l) = true →
      parse_line n l =
        ⟨n, trimEnd l, none, none, none, .unknown, some (trimEnd l), true⟩) ∧
    (∀ (n : Nat) (l : List Nat), isContinuation (trimEnd l) = false →
      matchStandard (trimEnd l) = none → matchSimple (trimEnd l) = none →
      matchHeader (trimEnd l) = false →
      parse_line n l = LogEntry.rawEntry n (trimEnd l)) := by
  refine ⟨?_, parse_line_proj, ?_, ?_⟩
  · intro n
    rw [parse_line]
    rw [show trimEnd c5Line = c5Line from by decide]
    simp only [show isContinuation c5Line = false from by decide,
      show matchStandard c5Line =
        some (bytes "2026.02.14-03.33.56:070", [48], bytes "LogWindows",
          bytes "Error", bytes "Test error message") from by decide,
      show parseU64 [48] = some 0 from by decide,
      show LogLevel.from_str (bytes "Error") = LogLevel.error from by decide,
      Bool.false_eq_true, if_false]
  · intro n l hc
    rw [parse_line, if_pos hc]
  · intro n l hc hstd hsimple hhdr
    rw [parse_line]
    simp only [hc, hstd, hsimple, hhdr, Bool.false_eq_true, if_false]

/-- C5 (witness): the order conjuncts applied at concrete lines — a
leading-space line takes the continuation branch, and a line matching no
format takes the fallback. -/
theorem c5_witness :
    parse_line 1 (bytes " cont") =
      ⟨1, trimEnd (bytes " cont"), none, none, none, .unknown,
        some (trimEnd (bytes " cont")), true⟩ ∧
    parse_line 2 (bytes "???") = LogEntry.rawEntry 2 (trimEnd (bytes "???")) :=
  ⟨c5_classification.2.2.1 1 (bytes " cont") (by decide),
   c5_classification.2.2.2 2 (bytes "???") (by decide) (by decide) (by decide) (by decide)⟩

/-! ## Lemmas: literal search -/

lemma literalOf_escape : ∀ p : List Nat, literalOf (escape p) = some p
  | [] => rfl
  | b :: t => by
    rw [escape]
    by_cases hb : metaB b
    · rw [if_pos hb]
      rw [show [92, b] ++ escape t = 92 :: b :: escape t from rfl]
      rw [literalOf, if_pos rfl]
      rw [if_pos hb, literalOf_escape t]
      rfl
    · rw [if_neg hb]
      rw [show [b] ++ escape t = b :: escape t from rfl]
      have h92 : b ≠ 92 := by
        intro h
        rw [h] at hb
        exact hb (by decide)
      rw [literalOf.eq_def]
      simp only [h92, hb, if_false, Bool.false_eq_true, literalOf_escape t,
        Option.map_some']

lemma take_of_isPrefixOf : ∀ {p l : List Nat}, p.isPrefixOf l →
    l.take p.length = p
  | [], l, _ => by simp
  | a :: as, [], h => by simp [List.isPrefixOf] at h
  | a :: as, b :: bs, h => by
    rw [List.isPrefixOf] at h
    simp only [Bool.and_eq_true] at h
    rw [List.length_cons, List.take_succ_cons, take_of_isPrefixOf h.2]
    rw [show b = a from (eq_of_beq h.1).symm]

lemma litGo_spans (pat text : List Nat) :
    ∀ (fuel : Nat) (rest : List Nat) (pos : Nat), rest = text.drop pos →
      ∀ pr ∈ litGo pat fuel rest pos,
        pr.2 = pr.1 + pat.length ∧ slice text pr.1 pr.2 = pat
  | 0, rest, pos, hrest => by
    rw [litGo.eq_def]
    intro pr hpr
    simp at hpr
  | fuel + 1, [], pos, hrest => by
    rw [litGo.eq_def]
    intro pr hpr
    simp at hpr
  | fuel + 1, x :: t, pos, hrest => by
    rw [litGo.eq_def]
    by_cases hpre : pat.isPrefixOf (x :: t)
    · simp only [if_pos hpre]
      intro pr hpr
      rcases List.mem_cons.mp hpr with rfl | h
      · refine ⟨rfl, ?_⟩
        have htake : (x :: t).take pat.length = pat := take_of_isPrefixOf hpre
        rw [slice, ← hrest, show pos + pat.length - pos = pat.length by omega, htake]
      · refine litGo_spans pat text fuel ((x :: t).drop pat.length)
          (pos + pat.length) ?_ pr h
        rw [hrest, List.drop_drop]
    · simp only [if_neg hpre]
      intro pr hpr
      refine litGo_spans pat text fuel t (pos + 1) ?_ pr hpr
      rw [show t = (x :: t).drop 1 from rfl, hrest, List.drop_drop]

lemma literalMatches_spans (pat text : List Nat) :
    ∀ pr ∈ literalMatches pat text,
      pr.2 = pr.1 + pat.length ∧ slice text pr.1 pr.2 = pat := by
  intro pr hpr
  rw [literalMatches] at hpr
  by_cases hp : pat = []
  · rw [if_pos hp] at hpr
    rcases List.mem_map.mp hpr with ⟨i, _, rfl⟩
    subst hp
    exact ⟨by simp, by simp [slice]⟩
  · rw [if_neg hp] at hpr
    exact litGo_spans pat text (text.length + 1) text 0 (by simp) pr hpr

/-- C8: in literal (non-regex) mode the engine construction never fails:
`regex::escape` backslash-escapes every metacharacter, so the escaped
pattern stays in the always-compilable literal fragment of regex syntax and
denotes exactly the original pattern (`literalOf (escape pat) = some pat`),
making the fallible construction succeed for every pattern text and produce
the literal matcher of the pattern. Consequently every case-sensitive
literal match returns the pattern verbatim (no metacharacter
interpretation), and the literal search for `"C:\Path\File.txt"` over a
line containing that exact substring returns that one substring. -/
theorem c8_literal_mode :
    (∀ pat : List Nat, literalOf (escape pat) = some pat) ∧
    (∀ (pat : List Nat) (ci : Bool),
      SearchEngine.newLiteralChecked pat ci = some (SearchEngine.newLiteral pat ci)) ∧
    (∀ (pat text : List Nat) (n : Nat),
      ∀ r ∈ search_in_string (SearchEngine.newLiteral pat false) text n,
        r.matched_text = pat ∧ r.end_ = r.start + pat.length) ∧
    search_in_string (SearchEngine.newLiteral (bytes "C:\\Path\\File.txt") false)
        (bytes "Loading C:\\Path\\File.txt") 1 =
      [⟨1, bytes "C:\\Path\\File.txt", 8, 24⟩] := by
  refine ⟨literalOf_escape, ?_, ?_, ?_⟩
  · intro pat ci
    rw [SearchEngine.newLiteralChecked, literalOf_escape pat]
    rfl
  · intro pat text n r hr
    rw [search_in_string] at hr
    rcases List.mem_map.mp hr with ⟨pr, hpr, rfl⟩
    have h := literalMatches_spans pat text pr hpr
    exact ⟨h.2, h.1⟩
  · decide


/-- C8 (witness): the theorem applied at the specification's concrete
pattern — escaping it stays in the literal fragment and denotes it
verbatim, the checked construction succeeds, and the match over the example
line returns the pattern verbatim. -/
theorem c8_witness :
    literalOf (escape (bytes "C:\\Path\\File.txt")) = some (bytes "C:\\Path\\File.txt") ∧
    SearchEngine.newLiteralChecked (bytes "C:\\Path\\File.txt") false =
      some (SearchEngine.newLiteral (bytes "C:\\Path\\File.txt") false) ∧
    (⟨1, bytes "C:\\Path\\File.txt", 8, 24⟩ : SearchResult).matched_text =
        bytes "C:\\Path\\File.txt" ∧
    (⟨1, bytes "C:\\Path\\File.txt", 8, 24⟩ : SearchResult).end_ =
        (⟨1, bytes "C:\\Path\\File.txt", 8, 24⟩ : SearchResult).start +
          (bytes "C:\\Path\\File.txt").length :=
  ⟨c8_literal_mode.1 (bytes "C:\\Path\\File.txt"),
   c8_literal_mode.2.1 (bytes "C:\\Path\\File.txt") false,
   c8_literal_mode.2.2.1 (bytes "C:\\Path\\File.txt") (bytes "Loading C:\\Path\\File.txt") 1
     ⟨1, bytes "C:\\Path\\File.txt", 8, 24⟩ (by decide)⟩

end UELog

theorem sanity_bytes : UELog.bytes "ab" = [97, 98] := by decide

example :
    UELog.search_in_string (UELog.SearchEngine.newLiteral (UELog.bytes "C:\\Path\\File.txt") false)
      (UELog.bytes "Loading C:\\Path\\File.txt") 1 =
    [⟨1, UELog.bytes "C:\\Path\\File.txt", 8, 24⟩] := by decide

example : (UELog.buildIndex (UELog.bytes "LogInit: Display: L1\nLogWindows: Error: L2\nLogCore: Warning: L3\n")).total_lines = 3 := by decide

example : (UELog.buildIndex (UELog.bytes "LogInit: Display: L1\nLogWindows: Error: L2\n")).categories =
    [(UELog.bytes "LogInit", 1), (UELog.bytes "LogWindows", 1)] := by decide

example : UELog.extract_level (UELog.bytes "LogWindows: Error: L2") = none := by decide

example : UELog.extract_level (UELog.bytes "[x][ 2]LogA:Error: boom") = some .error := by decide

example : UELog.extract_category (UELog.bytes "[ts][ 12]LogB: Error: x") = some (UELog.bytes "LogB") := by decide

example : UELog.validUtf8 [255] = false ∧ UELog.validUtf8 [195, 169] = true := by decide

example : (UELog.parse_line 1 (UELog.bytes "[2026.02.14-03.33.56:070][  0]LogWindows: Error: Test error message")) =
    ⟨1, UELog.bytes "[2026.02.14-03.33.56:070][  0]LogWindows: Error: Test error message",
      some (UELog.bytes "2026.02.14-03.33.56:070"), some 0, some (UELog.bytes "LogWindows"),
      .error, some (UELog.bytes "Test error message"), false⟩ := by decide

example : (UELog.parse_line 1 (UELog.bytes "LogInit: Warning: Initialization issue")).category =
    some (UELog.bytes "LogInit") := by decide

example : (UELog.parse_line 1 (UELog.bytes "  continued message here")).is_continuation = true := by decide

example : (UELog.parse_line 1 (UELog.bytes "Log file open, 02/14/26 11:33:35")).level = .display := by decide

